import Mathlib

/-!
Verification of `meilisearch-lib/src/index/search.rs`: the result-shaping and
filter-compilation layer of a search engine. The Rust source is shallowly
embedded below; `serde_json::Value` becomes `JsonValue` (a JSON number carries
its decimal rendering, since the source only ever uses a number through
`to_string()` and `as_f64()`), `BTreeMap`/`BTreeSet` become sorted association
lists / sorted lists, and the external collaborators (the milli engine, the
tokenizer/matcher, `permissive_json_pointer`) are either abstracted as function
parameters or modelled from the specification where noted.
-/

namespace MeiliSearch

/-- JSON values, as `serde_json::Value`. A number carries its decimal rendering
because the embedded code uses numbers only via `to_string()` (formatting) and
`as_f64()` (the geo path), never arithmetically. -/
inductive JsonValue where
  | str (s : String)
  | num (s : String)
  | bool (b : Bool)
  | null
  | arr (l : List JsonValue)
  | obj (l : List (String × JsonValue))
deriving Repr, BEq, Inhabited

/-- A document: ordered mapping from field name to JSON value
(`serde_json::Map<String, Value>` with insertion order preserved). -/
abbrev Document := List (String × JsonValue)

/-- Match bounds from the external matcher: byte start and length of a match
span inside a formatted string (`milli::MatchBounds`). -/
structure MatchBounds where
  start : Nat
  len : Nat
deriving Repr, DecidableEq, Inhabited

/-- The compiled filter predicate tree (`milli::Filter`): a boolean tree of
opaque leaf condition strings. -/
inductive FilterNode where
  | leaf (s : String)
  | or (l : List FilterNode)
  | and (l : List FilterNode)
deriving Repr, BEq, Inhabited

/-- `either::Either<Vec<&str>, &str>` as used by `parse_filter_array`:
`left` is an OR-group of leaves, `right` a single leaf. -/
inductive EitherLR where
  | left (ors : List String)
  | right (s : String)
deriving Repr, BEq, Inhabited

/-- The errors the search path can surface (`IndexError` restricted to the
variants this file produces): `facet` is `FacetError::InvalidExpression`
(expected shape names plus the offending value), `milli` an opaque external
engine/filter-parser error, `sortError` a sort-token parse failure. -/
inductive SearchError where
  | facet (expected : List String) (found : JsonValue)
  | milli (msg : String)
  | sortError (msg : String)
deriving Repr, BEq, Inhabited

/-- The hard result cap: `HARD_RESULT_LIMIT = 1000`. -/
def HARD_RESULT_LIMIT : Nat := 1000

/-- The pagination clamp of `perform_search` (search.rs lines 95-96):
`offset = min(query.offset.unwrap_or(0), HARD_RESULT_LIMIT)` and
`limit = min(query.limit, HARD_RESULT_LIMIT.saturating_sub(offset))`.
Natural-number subtraction is saturating, matching `saturating_sub`. -/
def effectiveBounds (offset : Option Nat) (limit : Nat) : Nat × Nat :=
  let o := min (offset.getD 0) HARD_RESULT_LIMIT
  (o, min limit (HARD_RESULT_LIMIT - o))

/-- Modelled from the spec: `milli::Filter::from_array` (external to this
file) builds a conjunction of groups, each group either a single leaf
condition or a disjunction of leaf conditions; an empty array denotes
"no filter" (`None`), never "match nothing". -/
def filterFromArray (ands : List EitherLR) : Option FilterNode :=
  if ands.isEmpty then none
  else some (.and (ands.map fun e =>
    match e with
    | .right s => .leaf s
    | .left ors => .or (ors.map .leaf)))

/-- The inner loop of `parse_filter_array` over an OR-group: every element
must be a string; the first non-string aborts with
`FacetError::InvalidExpression(&["String"], v)`. -/
def parseOrs : List JsonValue → Except SearchError (List String)
  | [] => .ok []
  | .str s :: rest =>
    match parseOrs rest with
    | .ok ors => .ok (s :: ors)
    | .error e => .error e
  | v :: _ => .error (.facet ["String"] v)

/-- The outer loop of `parse_filter_array`: a string is an AND-ed leaf, an
array an OR-group of strings; anything else aborts with
`FacetError::InvalidExpression(&["String", "[String]"], v)`. -/
def parseAnds : List JsonValue → Except SearchError (List EitherLR)
  | [] => .ok []
  | .str s :: rest =>
    match parseAnds rest with
    | .ok ands => .ok (.right s :: ands)
    | .error e => .error e
  | .arr inner :: rest =>
    match parseOrs inner with
    | .ok ors =>
      match parseAnds rest with
      | .ok ands => .ok (.left ors :: ands)
      | .error e => .error e
    | .error e => .error e
  | v :: _ => .error (.facet ["String", "[String]"] v)

/-- `parse_filter_array` (search.rs lines 573-599): validate the shape of the
array and hand the collected groups to the external `Filter::from_array`. -/
def parse_filter_array (arr : List JsonValue) : Except SearchError (Option FilterNode) :=
  match parseAnds arr with
  | .ok ands => .ok (filterFromArray ands)
  | .error e => .error e

/-- `parse_filter` (search.rs lines 562-571). A string expression is handed
verbatim to the external predicate parser `Filter::from_str` (the parameter
`fromStr`; its error is wrapped into the index error type by `?`); an array is
shape-checked by `parse_filter_array`; any other JSON value is
`FacetError::InvalidExpression(&["Array"], v)`. -/
def parse_filter (fromStr : String → Except String (Option FilterNode))
    (facets : JsonValue) : Except SearchError (Option FilterNode) :=
  match facets with
  | .str expr =>
    match fromStr expr with
    | .ok condition => .ok condition
    | .error e => .error (.milli e)
  | .arr arr => parse_filter_array arr
  | v => .error (.facet ["Array"] v)

/-- Is this JSON value a string? -/
def JsonValue.isStr : JsonValue → Bool
  | .str _ => true
  | _ => false

/-- Is this JSON value an array? -/
def JsonValue.isArr : JsonValue → Bool
  | .arr _ => true
  | _ => false

/-- Field identifiers (`milli::FieldId`, a `u16`; ids here are abstract
naturals since no arithmetic is performed on them). -/
abbrev FieldId := Nat

/-- `milli::FieldsIdsMap`: the index's field catalog, a bidirectional
id/name lookup whose iteration runs in ascending id order. Modelled as the
list of `(id, name)` pairs in that iteration order. -/
structure FieldsIdsMap where
  pairs : List (FieldId × String)
deriving Repr, Inhabited

/-- `FieldsIdsMap::id(name)`: the id of a field name, if catalogued. -/
def FieldsIdsMap.id (m : FieldsIdsMap) (attr : String) : Option FieldId :=
  (m.pairs.find? (fun p => p.2 == attr)).map (·.1)

/-- `FieldsIdsMap::name(id)`: the name of a field id, if catalogued. -/
def FieldsIdsMap.name (m : FieldsIdsMap) (id : FieldId) : Option String :=
  (m.pairs.find? (fun p => p.1 == id)).map (·.2)

/-- Insert into a sorted duplicate-free list of naturals: the `BTreeSet<FieldId>`
insert. -/
def insertSet (k : Nat) : List Nat → List Nat
  | [] => [k]
  | j :: rest =>
    if k < j then k :: j :: rest
    else if k = j then j :: rest
    else j :: insertSet k rest

/-- Collect a list of naturals into a sorted duplicate-free list: building a
`BTreeSet<FieldId>` from an iterator. -/
def sortDedup (l : List Nat) : List Nat :=
  l.foldr insertSet []

/-- `BTreeSet::intersection` of two field-id sets, keeping the order of the
first. -/
def listInter (a b : List Nat) : List Nat :=
  a.filter (· ∈ b)

/-- `milli::FormatOptions`: the per-field formatting plan entry. -/
structure FormatOptions where
  highlight : Bool
  crop : Option Nat
deriving Repr, DecidableEq, Inhabited

/-- The format-option plan `BTreeMap<FieldId, FormatOptions>`, modelled as an
association list sorted by field id. -/
abbrev FMap := List (FieldId × FormatOptions)

/-- `BTreeMap::insert`: overwrite the value at a key, or insert it at its
sorted position. -/
def fmInsert (k : FieldId) (v : FormatOptions) : FMap → FMap
  | [] => [(k, v)]
  | (j, w) :: rest =>
    if k < j then (k, v) :: (j, w) :: rest
    else if k = j then (k, v) :: rest
    else (j, w) :: fmInsert k v rest

/-- `BTreeMap::get`: the value at a key, if present. -/
def fmLookup (k : FieldId) : FMap → Option FormatOptions
  | [] => none
  | (j, w) :: rest => if k = j then some w else fmLookup k rest

/-- `BTreeMap::entry(k).and_modify(f).or_insert(dflt)`: apply `f` to the
value when the key is present, else insert the default at its sorted
position. -/
def fmEntry (k : FieldId) (f : FormatOptions → FormatOptions) (dflt : FormatOptions)
    (fo : FMap) : FMap :=
  match fmLookup k fo with
  | some w => fmInsert k (f w) fo
  | none => fmInsert k dflt fo

/-- The `fids` closure of `perform_search` (search.rs lines 132-145): resolve
attribute names to field ids. `"*"` replaces the accumulated set with the full
displayed set and stops the scan; a name absent from the catalog is skipped.
`attrs` lists the names in `BTreeSet<String>` iteration (sorted) order and
`ids` is the accumulator, empty at the top-level call. -/
def fids (m : FieldsIdsMap) (displayedIds : List FieldId) :
    List String → List FieldId → List FieldId
  | [], ids => ids
  | attr :: rest, ids =>
    if attr = "*" then displayedIds
    else
      match m.id attr with
      | some id => fids m displayedIds rest (insertSet id ids)
      | none => fids m displayedIds rest ids

/-- `to_retrieve_ids` (search.rs lines 151-158): the ids named by
`attributes_to_retrieve` (all displayed fields when absent), intersected with
the displayed set. -/
def toRetrieveIds (attributesToRetrieve : Option (List String)) (m : FieldsIdsMap)
    (displayedIds : List FieldId) : List FieldId :=
  listInter
    (match attributesToRetrieve with
     | some attrs => fids m displayedIds attrs []
     | none => displayedIds)
    displayedIds

/-- `add_highlight_to_formatted_options` (search.rs lines 305-330): for each
requested highlight attribute insert `{highlight: true, crop: None}` at its
field id (only if displayed); `"*"` inserts it for every displayed id and
stops the scan. `attrs` lists the `HashSet<String>` elements in iteration
order. -/
def add_highlight_to_formatted_options (formattedOptions : FMap)
    (attrs : List String) (m : FieldsIdsMap) (displayedIds : List FieldId) : FMap :=
  match attrs with
  | [] => formattedOptions
  | attr :: rest =>
    if attr = "*" then
      displayedIds.foldl (fun acc id => fmInsert id ⟨true, none⟩ acc) formattedOptions
    else
      match m.id attr with
      | some id =>
        if id ∈ displayedIds then
          add_highlight_to_formatted_options (fmInsert id ⟨true, none⟩ formattedOptions)
            rest m displayedIds
        else
          add_highlight_to_formatted_options formattedOptions rest m displayedIds
      | none => add_highlight_to_formatted_options formattedOptions rest m displayedIds

/-- Rust `usize::from_str`: digits with an optional leading `+` sign. -/
def parseUsize (s : String) : Option Nat :=
  match s.data with
  | '+' :: rest => if rest.isEmpty then none else String.toNat? (String.mk rest)
  | _ => s.toNat?

/-- The crop-attribute split of `add_crop_to_formatted_options` (search.rs
lines 340-347): `attr.rsplitn(2, ':')` takes the part after the RIGHTMOST
colon as a crop length (falling back to the query default when it does not
parse as a `usize`) and the part before it as the attribute name; with no
colon the whole string is the name. -/
def cropNameLen (attr : String) (cropLength : Nat) : String × Nat :=
  match (attr.data.reverse.splitOn ':') with
  | lenRev :: nameRev :: restRev =>
    let name := ((List.intercalate [':'] (nameRev :: restRev)).reverse).asString
    let lenStr := lenRev.reverse.asString
    (name, (parseUsize lenStr).getD cropLength)
  | _ => (attr, cropLength)

/-- `add_crop_to_formatted_options` (search.rs lines 332-373): for each crop
attribute, set/overwrite `crop` at its field id while preserving any prior
`highlight` (via `entry().and_modify().or_insert`); `"*"` applies to every
displayed id (and, as in the source, the name is still looked up afterwards —
the branches are sequential, not exclusive). -/
def add_crop_to_formatted_options (formattedOptions : FMap) (attrs : List String)
    (cropLength : Nat) (m : FieldsIdsMap) (displayedIds : List FieldId) : FMap :=
  match attrs with
  | [] => formattedOptions
  | attr :: rest =>
    let nameLen := cropNameLen attr cropLength
    let attrName := nameLen.1
    let attrLen := nameLen.2
    let afterStar :=
      if attrName = "*" then
        displayedIds.foldl
          (fun acc id => fmEntry id (fun f => ⟨f.highlight, some attrLen⟩) ⟨false, some attrLen⟩ acc)
          formattedOptions
      else formattedOptions
    let afterName :=
      match m.id attrName with
      | some id =>
        if id ∈ displayedIds then
          fmEntry id (fun f => ⟨f.highlight, some attrLen⟩) ⟨false, some attrLen⟩ afterStar
        else afterStar
      | none => afterStar
    add_crop_to_formatted_options afterName rest cropLength m displayedIds

/-- `add_non_formatted_ids_to_formatted_options` (search.rs lines 375-385):
pad the plan with `{highlight: false, crop: None}` at every retrieve id not
already present (`entry().or_insert`). -/
def add_non_formatted_ids_to_formatted_options (formattedOptions : FMap)
    (toRetrieve : List FieldId) : FMap :=
  toRetrieve.foldl (fun acc id => fmEntry id (fun f => f) ⟨false, none⟩ acc) formattedOptions

/-- `compute_formatted_options` (search.rs lines 272-303): highlight step,
then crop step, then — only when the plan is non-empty — padding with the
retrieve ids. -/
def compute_formatted_options (attrToHighlight : List String) (attrToCrop : List String)
    (queryCropLength : Nat) (toRetrieve : List FieldId) (m : FieldsIdsMap)
    (displayedIds : List FieldId) : FMap :=
  let fo := add_highlight_to_formatted_options [] attrToHighlight m displayedIds
  let fo := add_crop_to_formatted_options fo attrToCrop queryCropLength m displayedIds
  if fo.isEmpty then fo
  else add_non_formatted_ids_to_formatted_options fo toRetrieve

/-- The tokenizer-plus-matcher pipeline built per leaf in the source
(`Analyzer::analyze`, `MatcherBuilder::build`): external to this repository,
abstracted as the matches found in a text and the formatted rewrite of a text
under given format options. -/
structure TextMatcher where
  matchesOf : String → List MatchBounds
  formatOf : FormatOptions → String → String

mutual

/-- `format_value` (search.rs lines 471-560). A string leaf records its match
spans (when `computeMatches`) and is rewritten by the matcher exactly when a
format plan is present; a number leaf behaves like its decimal rendering and
is re-typed as a string exactly when a plan is present; arrays and objects
recurse with `crop` suppressed (`None`) and `highlight` inherited; any other
value (bool, null) is returned unchanged. `infos` is the mutable span
accumulator, threaded explicitly. -/
def format_value (matcher : TextMatcher) (computeMatches : Bool) :
    JsonValue → Option FormatOptions → List MatchBounds → JsonValue × List MatchBounds
  | .str s, formatOptions, infos =>
    let infos := if computeMatches then infos ++ matcher.matchesOf s else infos
    match formatOptions with
    | some f => (.str (matcher.formatOf f s), infos)
    | none => (.str s, infos)
  | .arr values, formatOptions, infos =>
    let r := format_value_list matcher computeMatches values
      (formatOptions.map fun f => ⟨f.highlight, none⟩) infos
    (.arr r.1, r.2)
  | .obj object, formatOptions, infos =>
    let r := format_value_obj matcher computeMatches object
      (formatOptions.map fun f => ⟨f.highlight, none⟩) infos
    (.obj r.1, r.2)
  | .num s, formatOptions, infos =>
    let infos := if computeMatches then infos ++ matcher.matchesOf s else infos
    match formatOptions with
    | some f => (.str (matcher.formatOf f s), infos)
    | none => (.num s, infos)
  | v, _, infos => (v, infos)

/-- The element-wise recursion of `format_value` over an array (the
`values.into_iter().map(...)` loop), threading the span accumulator in
element order. -/
def format_value_list (matcher : TextMatcher) (computeMatches : Bool) :
    List JsonValue → Option FormatOptions → List MatchBounds →
    List JsonValue × List MatchBounds
  | [], _, infos => ([], infos)
  | v :: rest, formatOptions, infos =>
    let r := format_value matcher computeMatches v formatOptions infos
    let r2 := format_value_list matcher computeMatches rest formatOptions r.2
    (r.1 :: r2.1, r2.2)

/-- The entry-wise recursion of `format_value` over an object (the
`object.into_iter().map(...)` loop), threading the span accumulator in entry
order. -/
def format_value_obj (matcher : TextMatcher) (computeMatches : Bool) :
    List (String × JsonValue) → Option FormatOptions → List MatchBounds →
    List (String × JsonValue) × List MatchBounds
  | [], _, infos => ([], infos)
  | (k, v) :: rest, formatOptions, infos =>
    let r := format_value matcher computeMatches v formatOptions infos
    let r2 := format_value_obj matcher computeMatches rest formatOptions r.2
    ((k, r.1) :: r2.1, r2.2)

end

/-- Modelled from the spec: `milli::is_faceted_by a b` holds when `b` is a
segment-prefix of the dotted path `a` — an explicit prefix-on-segments
comparison (design note §9). -/
def is_faceted_by (a b : String) : Bool :=
  (b.splitOn ".").isPrefixOf (a.splitOn ".")

/-- Modelled from the spec: the external path-selection capability
(`permissive_json_pointer`) reaches a document entry from a selector when one
path is an ancestor-or-equal of the other (`isAncestorOrDescendantPath`). -/
def selectedBy (key : String) (names : List String) : Bool :=
  names.any fun n => is_faceted_by key n || is_faceted_by n key

/-- Modelled from the spec: `permissive_json_pointer::select_values` copies
from the document only the parts reachable from the selector paths; in this
flat-keyed model an entry is kept exactly when its key is related to some
selector as ancestor or descendant. -/
def select_values (doc : Document) (names : List String) : Document :=
  doc.filter fun kv => selectedBy kv.1 names

/-- Modelled from the spec: `milli::FormatOptions::merge` ORs the two
highlight flags and keeps a crop value when either side has one, the
accumulator winning when both do. -/
def FormatOptions.merge (a b : FormatOptions) : FormatOptions :=
  ⟨a.highlight || b.highlight, match a.crop with | some c => some c | none => b.crop⟩

/-- The per-leaf plan merge of `format_fields` (search.rs lines 435-442): keep
every plan entry whose field name is ancestor-or-descendant of the leaf key
and fold their options with `FormatOptions::merge` (`Iterator::reduce`, in
plan iteration order, i.e. ascending field id); `none` when no entry
applies. -/
def formatOptionFor (m : FieldsIdsMap) (formattedOptions : FMap) (key : String) :
    Option FormatOptions :=
  match (formattedOptions.filter fun p =>
      match m.name p.1 with
      | some name => is_faceted_by name key || is_faceted_by key name
      | none => false).map (·.2) with
  | [] => none
  | o :: rest => some (rest.foldl FormatOptions.merge o)

/-- Sorted-insert into the match-position mapping
(`BTreeMap<String, Vec<MatchBounds>>::insert`). -/
def mpInsert (k : String) (v : List MatchBounds) :
    List (String × List MatchBounds) → List (String × List MatchBounds)
  | [] => [(k, v)]
  | (j, w) :: rest =>
    if k < j then (k, v) :: (j, w) :: rest
    else if k = j then (k, v) :: rest
    else (j, w) :: mpInsert k v rest

/-- The per-leaf visit of `format_fields` (the closure passed to
`permissive_json_pointer::map_leaf_values`): rewrite the leaf through
`format_value` under its merged plan entry and record its spans (under the
leaf key) when matches are computed and the span list is non-empty. -/
def formatLeafStep (matcher : TextMatcher) (m : FieldsIdsMap) (formattedOptions : FMap)
    (computeMatches : Bool) (displayableNames : List String)
    (acc : List (String × List MatchBounds) × Document) (kv : String × JsonValue) :
    List (String × List MatchBounds) × Document :=
  if selectedBy kv.1 displayableNames then
    let fmt := formatOptionFor m formattedOptions kv.1
    let r := format_value matcher computeMatches kv.2 fmt []
    let mp := if computeMatches && !(r.2.isEmpty) then mpInsert kv.1 r.2 acc.1 else acc.1
    (mp, acc.2 ++ [(kv.1, r.1)])
  else (acc.1, acc.2 ++ [kv])

/-- The match spans a single visited leaf contributes in `format_fields` when
matches are computed: the `infos` vector the per-leaf closure hands to
`format_value` (fresh per leaf, search.rs lines 443-452), filled for the leaf
value under its merged plan entry. -/
def leafInfos (matcher : TextMatcher) (m : FieldsIdsMap) (formattedOptions : FMap)
    (kv : String × JsonValue) : List MatchBounds :=
  (format_value matcher true kv.2 (formatOptionFor m formattedOptions kv.1) []).2

/-- `format_fields` (search.rs lines 414-469): walk the leaves reachable from
the displayed field names rewriting each through `format_value`, gather match
positions (the accumulator starts as `Some(empty)` exactly when
`computeMatches`), and finally restrict the document to the field names
present in the plan. -/
def format_fields (matcher : TextMatcher) (m : FieldsIdsMap) (formattedOptions : FMap)
    (computeMatches : Bool) (displayableIds : List FieldId) (doc : Document) :
    Option (List (String × List MatchBounds)) × Document :=
  let displayableNames := displayableIds.filterMap m.name
  let res := doc.foldl
    (formatLeafStep matcher m formattedOptions computeMatches displayableNames) ([], [])
  let selectors := (formattedOptions.map (·.1)).filterMap m.name
  ((if computeMatches then some res.1 else none), select_values res.2 selectors)

/-- A search hit (`SearchHit`): the projected document, the formatted view and
the optional match positions. -/
structure SearchHit where
  document : Document
  formatted : Document
  matchesPosition : Option (List (String × List MatchBounds))
deriving Repr, BEq, Inhabited

/-- Serde serialization of `SearchHit` emits the `_formatted` key exactly when
the formatted document is non-empty
(`skip_serializing_if = "Document::is_empty"`, search.rs line 63). -/
def SearchHit.hasFormattedKey (hit : SearchHit) : Bool :=
  !hit.formatted.isEmpty

/-- Serde serialization of `SearchHit` emits the `_matchesPosition` key exactly
when the option is `Some` (`skip_serializing_if = "Option::is_none"`,
search.rs line 65); a present-but-empty mapping is serialized as an empty
object, not omitted. -/
def SearchHit.hasMatchesPositionKey (hit : SearchHit) : Bool :=
  hit.matchesPosition.isSome

/-- The character class `[[:digit:].\-]` of the geo regex. -/
def isGeoDigit (c : Char) : Bool :=
  c.isDigit || c = '.' || c = '-'

/-- `\s*`: drop leading whitespace. -/
def skipWs (cs : List Char) : List Char :=
  cs.dropWhile (·.isWhitespace)

/-- Drop a literal character sequence from the front, or fail. -/
def dropLit : List Char → List Char → Option (List Char)
  | [], cs => some cs
  | l :: ls, c :: cs => if l = c then dropLit ls cs else none
  | _ :: _, [] => none

/-- Try to match the geo regex
`_geoPoint\(\s*([[:digit:].\-]+)\s*,\s*([[:digit:].\-]+)\s*\)` at the start of
the text, returning the two captured literals. Greedy maximal munch on the
capture classes is equivalent to the regex here because the class is disjoint
from `,`, `)` and whitespace. -/
def geoMatchAt (cs : List Char) : Option (String × String) :=
  match dropLit "_geoPoint(".data cs with
  | none => none
  | some cs =>
    let cs := skipWs cs
    let d1 := cs.takeWhile isGeoDigit
    let cs := cs.dropWhile isGeoDigit
    if d1.isEmpty then none
    else
      match skipWs cs with
      | ',' :: cs =>
        let cs := skipWs cs
        let d2 := cs.takeWhile isGeoDigit
        let cs := cs.dropWhile isGeoDigit
        if d2.isEmpty then none
        else
          match skipWs cs with
          | ')' :: _ => some (d1.asString, d2.asString)
          | _ => none
      | _ => none

/-- Scan for the leftmost match of the geo regex. -/
def geoCaptureFrom : List Char → Option (String × String)
  | [] => none
  | c :: rest =>
    match geoMatchAt (c :: rest) with
    | some r => some r
    | none => geoCaptureFrom rest

/-- `GEO_REGEX.captures(sort)`: the first `_geoPoint(<lat>,<lng>)` capture in
a sort token, if any. -/
def geoCapture (s : String) : Option (String × String) :=
  geoCaptureFrom s.data

/-- `serde_json::Map::get`. -/
def docGet (doc : Document) (k : String) : Option JsonValue :=
  (doc.find? (fun kv => kv.1 == k)).map (·.2)

/-- `serde_json::Value` square-bracket indexing: the field of an object, and
`Null` for every other value or a missing key. -/
def jsonIndex (v : JsonValue) (k : String) : JsonValue :=
  match v with
  | .obj kvs => ((kvs.find? (fun kv => kv.1 == k)).map (·.2)).getD .null
  | _ => .null

/-- `Value::as_f64`: defined exactly on JSON numbers (every stored number
converts); the numeric payload stays its rendering. -/
def jsonAsNum : JsonValue → Option String
  | .num s => some s
  | _ => none

/-- `serde_json::Map::insert` with insertion order preserved: replace the
value at an existing key in place, else append. -/
def docInsert (doc : Document) (k : String) (v : JsonValue) : Document :=
  if doc.any (fun kv => kv.1 == k) then
    doc.map (fun kv => if kv.1 == k then (k, v) else kv)
  else doc ++ [(k, v)]

/-- `insert_geo_distance` (search.rs lines 253-270): find the first sort token
matched by the geo regex; if one exists and the document's `_geo` value has
numeric `lat` and `lng`, insert the rounded distance under `_geoDistance`.
The float parsing of the captured literals, the great-circle distance
(`milli::distance_between_two_points`) and the rounding to `usize` are
external and abstracted as `dist`, from the two captured literals and the
document's `lat`/`lng` numbers to the rounded distance. -/
def insert_geo_distance (dist : String → String → String → String → Nat)
    (sorts : List String) (doc : Document) : Document :=
  match sorts.findSome? geoCapture with
  | some capture =>
    let geoPoint := (docGet doc "_geo").getD .null
    match jsonAsNum (jsonIndex geoPoint "lat"), jsonAsNum (jsonIndex geoPoint "lng") with
    | some lat, some lng =>
      docInsert doc "_geoDistance" (.num (toString (dist capture.1 capture.2 lat lng)))
    | _, _ => doc
  | none => doc

/-- `milli::AscDesc`: a parsed sort criterion (payload opaque here). -/
inductive AscDesc where
  | asc (field : String)
  | desc (field : String)
deriving Repr, BEq, Inhabited

/-- The sort-token loop of `perform_search` (search.rs lines 107-116):
`sort.iter().map(AscDesc::from_str).collect()` — parse every token with the
external parser `p`, failing fast on the first invalid token. -/
def parseSorts (p : String → Except String AscDesc) : List String → Except String (List AscDesc)
  | [] => .ok []
  | s :: rest =>
    match p s with
    | .error e => .error e
    | .ok a =>
      match parseSorts p rest with
      | .error e => .error e
      | .ok l => .ok (a :: l)

/-- `SearchQuery` (search.rs lines 33-57). Serde defaults (`limit=20`,
`crop_length=10`, tags and marker) are applied at deserialization, so the
fields here are already populated. `attributes_to_retrieve` is a
`BTreeSet<String>` listed in sorted iteration order and
`attributes_to_highlight` a `HashSet<String>` listed in its iteration
order. -/
structure SearchQuery where
  q : Option String
  offset : Option Nat
  limit : Nat
  attributesToRetrieve : Option (List String)
  attributesToCrop : Option (List String)
  cropLength : Nat
  attributesToHighlight : Option (List String)
  showMatchesPosition : Bool
  filter : Option JsonValue
  sort : Option (List String)
  facets : Option (List String)
  highlightPreTag : String
  highlightPostTag : String
  cropMarker : String
deriving Inhabited

/-- What `Search::execute` returns (`milli::SearchResult`): the matched
document ids, the matcher family derived from the matched words (to which the
query's crop marker and highlight tags are applied, yielding the built
matcher), and the candidate id set. -/
structure EngineResult where
  documentsIds : List Nat
  matcherFamily : String → String → String → TextMatcher
  candidates : List Nat

/-- The index snapshot and its external collaborators, as consumed by
`perform_search`: the field catalog, the displayed-field configuration
(`None` means every catalogued field is displayed), the external filter
predicate parser (`Filter::from_str`), the external sort-token parser
(`AscDesc::from_str`), the engine search call, the document fetch (returning
each stored record as its decoded `(field id, value)` pairs — the per-value
`serde_json::from_slice` decode failure is folded into this call's error),
the facet-distribution computation and the geo distance function. -/
structure IndexModel where
  fieldsIdsMap : FieldsIdsMap
  displayedFields : Option (List FieldId)
  filterFromStr : String → Except String (Option FilterNode)
  ascDescOf : String → Except String AscDesc
  searchFn : Option String → Nat → Nat → Option FilterNode → Option (List AscDesc) →
    Except String EngineResult
  documentsFn : List Nat → Except String (List (List (FieldId × JsonValue)))
  facetsFn : Option (List String) → List Nat →
    Except String (List (String × List (String × Nat)))
  distFn : String → String → String → String → Nat

/-- `make_document` (search.rs lines 387-412): rebuild the stored document
(field ids mapped back to names, in record order) and restrict it to the
displayed attributes. -/
def make_document (displayedAttributes : List FieldId) (m : FieldsIdsMap)
    (obkv : List (FieldId × JsonValue)) : Document :=
  let doc := obkv.foldl
    (fun acc kv =>
      match m.name kv.1 with
      | some key => docInsert acc key kv.2
      | none => acc)
    []
  select_values doc (displayedAttributes.filterMap m.name)

/-- `SearchResult` (search.rs lines 69-80). `processing_time_ms` is wall-clock
time, outside the model. -/
structure SearchResult where
  hits : List SearchHit
  estimatedTotalHits : Nat
  query : String
  limit : Nat
  offset : Nat
  facetDistribution : Option (List (String × List (String × Nat)))
deriving Inhabited

/-- The per-document body of the hit loop of `perform_search` (search.rs
lines 192-223). -/
def makeHit (idx : IndexModel) (query : SearchQuery) (matcher : TextMatcher)
    (displayedIds : List FieldId) (retrieveIds : List FieldId) (formattedOptions : FMap)
    (obkv : List (FieldId × JsonValue)) : SearchHit :=
  let displayedDocument := make_document displayedIds idx.fieldsIdsMap obkv
  let attributesToRetrieve := retrieveIds.filterMap idx.fieldsIdsMap.name
  let doc := select_values displayedDocument attributesToRetrieve
  let r := format_fields matcher idx.fieldsIdsMap formattedOptions
    query.showMatchesPosition displayedIds displayedDocument
  let doc :=
    match query.sort with
    | some sorts => insert_geo_distance idx.distFn sorts doc
    | none => doc
  ⟨doc, r.2, r.1⟩

/-- `perform_search` (search.rs lines 83-250): clamp the pagination bounds,
compile the filter, parse the sort criteria, run the engine, resolve the
displayed/retrieve field sets, plan the format options, build each hit
(projection, formatting, geo augmentation) and assemble the result, echoing
the caller's query string, limit and offset. -/
def perform_search (idx : IndexModel) (query : SearchQuery) :
    Except SearchError SearchResult := do
  let bounds := effectiveBounds query.offset query.limit
  let filterNode ←
    match query.filter with
    | some f => parse_filter idx.filterFromStr f
    | none => Except.ok none
  let sortCriteria ←
    match query.sort with
    | some sorts =>
      match parseSorts idx.ascDescOf sorts with
      | .ok l => Except.ok (some l)
      | .error e => Except.error (.sortError e)
    | none => Except.ok none
  let er ←
    match idx.searchFn query.q bounds.1 bounds.2 filterNode sortCriteria with
    | .ok er => Except.ok er
    | .error e => Except.error (.milli e)
  let m := idx.fieldsIdsMap
  let displayedIds :=
    match idx.displayedFields with
    | some fields => sortDedup fields
    | none => sortDedup (m.pairs.map (·.1))
  let retrieveIds := toRetrieveIds query.attributesToRetrieve m displayedIds
  let attrToHighlight := query.attributesToHighlight.getD []
  let attrToCrop := query.attributesToCrop.getD []
  let formattedOptions := compute_formatted_options attrToHighlight attrToCrop
    query.cropLength retrieveIds m displayedIds
  let matcher := er.matcherFamily query.cropMarker query.highlightPreTag
    query.highlightPostTag
  let records ←
    match idx.documentsFn er.documentsIds with
    | .ok records => Except.ok records
    | .error e => Except.error (.milli e)
  let documents := records.map
    (makeHit idx query matcher displayedIds retrieveIds formattedOptions)
  let facetDistribution ←
    match query.facets with
    | some fields =>
      let arg := if fields.all (· != "*") then some fields else none
      match idx.facetsFn arg er.candidates with
      | .ok distribution => Except.ok (some distribution)
      | .error e => Except.error (.milli e)
    | none => Except.ok none
  Except.ok
    { hits := documents
      estimatedTotalHits := er.candidates.length
      query := query.q.getD ""
      limit := query.limit
      offset := query.offset.getD 0
      facetDistribution := facetDistribution }

/-- An index identical to `idx` except that its engine rejects any search call
whose pagination bounds exceed the hard cap: used to state that
`perform_search` never makes such a call. -/
def boundsCheckedIdx (idx : IndexModel) : IndexModel :=
  { idx with
    searchFn := fun q o l f s =>
      if o ≤ HARD_RESULT_LIMIT ∧ o + l ≤ HARD_RESULT_LIMIT then idx.searchFn q o l f s
      else .error "bounds exceeded" }

/-- A matcher that finds no matches and rewrites nothing: concrete input for
witnesses. -/
def trivialMatcher : TextMatcher :=
  ⟨fun _ => [], fun _ s => s⟩

/-- A matcher that reports one fixed span in every text: concrete input for
witnesses. -/
def spanMatcher : TextMatcher :=
  ⟨fun _ => [⟨0, 1⟩], fun _ s => s⟩

/-- A concrete index model whose engine finds nothing: input for witnesses. -/
def idxW : IndexModel where
  fieldsIdsMap := ⟨[(0, "title"), (1, "body")]⟩
  displayedFields := none
  filterFromStr := fun s => .ok (some (.leaf s))
  ascDescOf := fun s => .ok (.asc s)
  searchFn := fun _ _ _ _ _ => .ok ⟨[], fun _ _ _ => trivialMatcher, []⟩
  documentsFn := fun _ => .ok []
  facetsFn := fun _ _ => .ok []
  distFn := fun _ _ _ _ => 0

/-- A concrete query with every serde default: input for witnesses. -/
def queryW : SearchQuery where
  q := some "shoe"
  offset := none
  limit := 20
  attributesToRetrieve := none
  attributesToCrop := none
  cropLength := 10
  attributesToHighlight := none
  showMatchesPosition := false
  filter := none
  sort := none
  facets := none
  highlightPreTag := "<em>"
  highlightPostTag := "</em>"
  cropMarker := "…"

/-- The result `perform_search idxW queryW` produces. -/
def searchResultW : SearchResult where
  hits := []
  estimatedTotalHits := 0
  query := "shoe"
  limit := 20
  offset := 0
  facetDistribution := none

/-- A concrete document with a numeric `_geo` point: input for witnesses. -/
def geoDocW : Document :=
  [("_geo", .obj [("lat", .num "50.6"), ("lng", .num "3.05")]), ("city", .str "Lille")]

/-- An array element of invalid filter shape: neither a string nor an array
of strings. -/
def badFilterElem : JsonValue → Bool
  | .str _ => false
  | .arr inner => inner.any (fun w => !w.isStr)
  | _ => true

/-- The body of one iteration of the `add_crop_to_formatted_options` loop
(search.rs lines 339-371), extracted for reasoning; `add_crop_cons_eq` below
shows the loop is the fold of this step. -/
def cropApplyAttr (fo : FMap) (attr : String) (cropLength : Nat) (m : FieldsIdsMap)
    (displayed : List FieldId) : FMap :=
  let nameLen := cropNameLen attr cropLength
  let afterStar :=
    if nameLen.1 = "*" then
      displayed.foldl
        (fun acc id => fmEntry id (fun f => ⟨f.highlight, some nameLen.2⟩)
          ⟨false, some nameLen.2⟩ acc)
        fo
    else fo
  match m.id nameLen.1 with
  | some id =>
    if id ∈ displayed then
      fmEntry id (fun f => ⟨f.highlight, some nameLen.2⟩) ⟨false, some nameLen.2⟩ afterStar
    else afterStar
  | none => afterStar

/-! Lemmas about the map operations. -/

theorem fmLookup_fmInsert (i k : FieldId) (v : FormatOptions) (fo : FMap) :
    fmLookup i (fmInsert k v fo) = if i = k then some v else fmLookup i fo := by
  induction fo with
  | nil => by_cases h : i = k <;> simp [fmInsert, fmLookup, h]
  | cons p rest ih =>
    obtain ⟨j, w⟩ := p
    by_cases h1 : k < j
    · simp only [fmInsert, if_pos h1]
      by_cases h : i = k <;> simp [fmLookup, h]
    · by_cases h2 : k = j
      · subst h2
        simp only [fmInsert, if_neg h1, if_pos rfl]
        by_cases h : i = k <;> simp [fmLookup, h]
      · simp only [fmInsert, if_neg h1, if_neg h2]
        by_cases h : i = j
        · subst h
          have h' : ¬ i = k := fun hh => h2 hh.symm
          simp [fmLookup, h']
        · simp [fmLookup, h, ih]

theorem fmLookup_fmEntry (i k : FieldId) (f : FormatOptions → FormatOptions)
    (d : FormatOptions) (fo : FMap) :
    fmLookup i (fmEntry k f d fo) =
      if i = k then
        some (match fmLookup k fo with | some w => f w | none => d)
      else fmLookup i fo := by
  unfold fmEntry
  cases h : fmLookup k fo <;> simp [fmLookup_fmInsert, h]

theorem fmLookup_foldl_preserve (g : FMap → Nat → FMap) (id : Nat)
    (hg : ∀ fo j, j ≠ id → fmLookup id (g fo j) = fmLookup id fo)
    (ids : List Nat) : ∀ fo : FMap, id ∉ ids →
      fmLookup id (ids.foldl g fo) = fmLookup id fo := by
  induction ids with
  | nil => intro fo _; rfl
  | cons j rest ih =>
    intro fo h
    simp only [List.mem_cons, not_or] at h
    simp only [List.foldl_cons]
    rw [ih _ h.2, hg fo j (fun hh => h.1 hh.symm)]

theorem fmLookup_foldl_insert_mem (v : FormatOptions) (id : Nat) (ids : List Nat) :
    ∀ fo : FMap, id ∈ ids →
      fmLookup id (ids.foldl (fun acc j => fmInsert j v acc) fo) = some v := by
  induction ids with
  | nil => simp
  | cons j rest ih =>
    intro fo h
    simp only [List.foldl_cons]
    by_cases hm : id ∈ rest
    · exact ih _ hm
    · have hj : id = j := by
        rcases List.mem_cons.mp h with h1 | h2
        · exact h1
        · exact absurd h2 hm
      subst hj
      rw [fmLookup_foldl_preserve (fun acc j => fmInsert j v acc) id
        (fun fo j hj => by rw [fmLookup_fmInsert]; simp [Ne.symm hj]) rest _ hm]
      rw [fmLookup_fmInsert]
      simp

theorem fmLookup_foldl_orInsert_mem (d : FormatOptions) (id : Nat) (ids : List Nat) :
    ∀ fo : FMap, id ∈ ids →
      fmLookup id (ids.foldl (fun acc j => fmEntry j (fun f => f) d acc) fo) =
        some ((fmLookup id fo).getD d) := by
  induction ids with
  | nil => simp
  | cons j rest ih =>
    intro fo h
    simp only [List.foldl_cons]
    by_cases hm : id ∈ rest
    · rw [ih _ hm, fmLookup_fmEntry]
      by_cases hj : id = j
      · subst hj
        cases hlk : fmLookup id fo <;> simp [hlk]
      · simp [hj]
    · have hj : id = j := by
        rcases List.mem_cons.mp h with h1 | h2
        · exact h1
        · exact absurd h2 hm
      subst hj
      rw [fmLookup_foldl_preserve (fun acc j => fmEntry j (fun f => f) d acc) id
        (fun fo j hj => by rw [fmLookup_fmEntry]; simp [Ne.symm hj]) rest _ hm]
      rw [fmLookup_fmEntry]
      cases hlk : fmLookup id fo <;> simp [hlk]

/-- C1: for every search query, the effective pagination bounds satisfy
`effective_offset = min(requested offset, 1000)` and
`effective_limit = min(requested limit, 1000 - effective_offset)`, hence
`effective_offset ≤ 1000` and `effective_offset + effective_limit ≤ 1000`
for all caller-supplied offset and limit values. -/
theorem pagination_bounds_clamped (offset : Option Nat) (limit : Nat) :
    (effectiveBounds offset limit).1 = min (offset.getD 0) 1000 ∧
    (effectiveBounds offset limit).2 = min limit (1000 - (effectiveBounds offset limit).1) ∧
    (effectiveBounds offset limit).1 ≤ 1000 ∧
    (effectiveBounds offset limit).1 + (effectiveBounds offset limit).2 ≤ 1000 := by
  refine ⟨rfl, rfl, ?_, ?_⟩ <;>
    (simp only [effectiveBounds, HARD_RESULT_LIMIT]; omega)

/-- C3: compiling the empty filter array yields `None` ("no filter"),
compiling `["a", ["b","c"]]` yields `AND(leaf "a", OR(leaf "b", leaf "c"))`,
and compiling a string expression delegates to the external predicate parser,
propagating its result or its failure verbatim. -/
theorem filter_compile_cases (fromStr : String → Except String (Option FilterNode)) :
    parse_filter fromStr (.arr []) = .ok none ∧
    parse_filter fromStr (.arr [.str "a", .arr [.str "b", .str "c"]]) =
      .ok (some (.and [.leaf "a", .or [.leaf "b", .leaf "c"]])) ∧
    (∀ s r, fromStr s = .ok r → parse_filter fromStr (.str s) = .ok r) ∧
    (∀ s e, fromStr s = .error e → parse_filter fromStr (.str s) = .error (.milli e)) := by
  refine ⟨rfl, rfl, ?_, ?_⟩ <;> intro s x h <;> simp [parse_filter, h]

theorem filter_compile_cases_witness :
    parse_filter (fun s => .ok (some (.leaf s))) (.str "x") = .ok (some (.leaf "x")) :=
  (filter_compile_cases (fun s => .ok (some (.leaf s)))).2.2.1 "x" (some (.leaf "x")) rfl

theorem parseOrs_error (inner : List JsonValue)
    (h : inner.any (fun w => !w.isStr) = true) :
    ∃ w, parseOrs inner = .error (.facet ["String"] w) ∧ w ∈ inner ∧ w.isStr = false := by
  induction inner with
  | nil => simp at h
  | cons v rest ih =>
    cases v with
    | str s =>
      have h' : rest.any (fun w => !w.isStr) = true := by
        simpa [JsonValue.isStr] using h
      obtain ⟨w, hw, hmem, hstr⟩ := ih h'
      exact ⟨w, by simp [parseOrs, hw], List.mem_cons_of_mem _ hmem, hstr⟩
    | num s => exact ⟨.num s, by simp [parseOrs], by simp, by simp [JsonValue.isStr]⟩
    | bool b => exact ⟨.bool b, by simp [parseOrs], by simp, by simp [JsonValue.isStr]⟩
    | null => exact ⟨.null, by simp [parseOrs], by simp, by simp [JsonValue.isStr]⟩
    | arr l => exact ⟨.arr l, by simp [parseOrs], by simp, by simp [JsonValue.isStr]⟩
    | obj l => exact ⟨.obj l, by simp [parseOrs], by simp, by simp [JsonValue.isStr]⟩

theorem parseOrs_ok (inner : List JsonValue) (h : ∀ w ∈ inner, w.isStr = true) :
    ∃ l, parseOrs inner = .ok l := by
  induction inner with
  | nil => exact ⟨[], rfl⟩
  | cons v rest ih =>
    have hv := h v (List.mem_cons_self _ _)
    cases v with
    | str s =>
      obtain ⟨l, hl⟩ := ih (fun w hw => h w (List.mem_cons_of_mem _ hw))
      exact ⟨s :: l, by simp [parseOrs, hl]⟩
    | num s => simp [JsonValue.isStr] at hv
    | bool b => simp [JsonValue.isStr] at hv
    | null => simp [JsonValue.isStr] at hv
    | arr l => simp [JsonValue.isStr] at hv
    | obj l => simp [JsonValue.isStr] at hv

theorem parseAnds_bad (arr : List JsonValue) (h : arr.any badFilterElem = true) :
    ∃ expected w, parseAnds arr = .error (.facet expected w) ∧
      ((expected = ["String", "[String]"] ∧ w ∈ arr ∧ w.isStr = false ∧ w.isArr = false) ∨
       (expected = ["String"] ∧
        ∃ inner, JsonValue.arr inner ∈ arr ∧ w ∈ inner ∧ w.isStr = false)) := by
  induction arr with
  | nil => simp at h
  | cons v rest ih =>
    cases v with
    | str s =>
      have h' : rest.any badFilterElem = true := by
        simpa [badFilterElem] using h
      obtain ⟨exp, w, hw, hcase⟩ := ih h'
      refine ⟨exp, w, by simp [parseAnds, hw], ?_⟩
      rcases hcase with ⟨h1, h2, h3⟩ | ⟨h1, inner, h2, h3⟩
      · exact Or.inl ⟨h1, List.mem_cons_of_mem _ h2, h3⟩
      · exact Or.inr ⟨h1, inner, List.mem_cons_of_mem _ h2, h3⟩
    | arr inner =>
      by_cases hbad : inner.any (fun w => !w.isStr) = true
      · obtain ⟨w, hw, hmem, hstr⟩ := parseOrs_error inner hbad
        exact ⟨["String"], w, by simp [parseAnds, hw],
          Or.inr ⟨rfl, inner, List.mem_cons_self _ _, hmem, hstr⟩⟩
      · have hok : ∀ w ∈ inner, w.isStr = true := by
          intro w hw
          by_contra hc
          exact hbad (List.any_eq_true.mpr ⟨w, hw, by simp [hc]⟩)
        obtain ⟨l, hl⟩ := parseOrs_ok inner hok
        have h' : rest.any badFilterElem = true := by
          simpa [badFilterElem, hbad] using h
        obtain ⟨exp, w, hw, hcase⟩ := ih h'
        refine ⟨exp, w, by simp [parseAnds, hl, hw], ?_⟩
        rcases hcase with ⟨h1, h2, h3⟩ | ⟨h1, inner2, h2, h3⟩
        · exact Or.inl ⟨h1, List.mem_cons_of_mem _ h2, h3⟩
        · exact Or.inr ⟨h1, inner2, List.mem_cons_of_mem _ h2, h3⟩
    | num s =>
      exact ⟨["String", "[String]"], .num s, by simp [parseAnds],
        Or.inl ⟨rfl, by simp, by simp [JsonValue.isStr], by simp [JsonValue.isArr]⟩⟩
    | bool b =>
      exact ⟨["String", "[String]"], .bool b, by simp [parseAnds],
        Or.inl ⟨rfl, by simp, by simp [JsonValue.isStr], by simp [JsonValue.isArr]⟩⟩
    | null =>
      exact ⟨["String", "[String]"], .null, by simp [parseAnds],
        Or.inl ⟨rfl, by simp, by simp [JsonValue.isStr], by simp [JsonValue.isArr]⟩⟩
    | obj l =>
      exact ⟨["String", "[String]"], .obj l, by simp [parseAnds],
        Or.inl ⟨rfl, by simp, by simp [JsonValue.isStr], by simp [JsonValue.isArr]⟩⟩

/-- C4: every filter expression containing an element of invalid shape
compiles to an `InvalidExpression` error naming the expected shapes
(`["Array"]` for a non-string, non-array top level; `["String", "[String]"]`
for an array element that is neither; `["String"]` for a non-string inside an
inner array) and carrying the offending value; no filter is produced. -/
theorem filter_shape_errors (fromStr : String → Except String (Option FilterNode)) :
    (∀ v, v.isStr = false → v.isArr = false →
      parse_filter fromStr v = .error (.facet ["Array"] v)) ∧
    (∀ arr, arr.any badFilterElem = true →
      ∃ expected w, parse_filter fromStr (.arr arr) = .error (.facet expected w) ∧
        ((expected = ["String", "[String]"] ∧ w ∈ arr ∧ w.isStr = false ∧ w.isArr = false) ∨
         (expected = ["String"] ∧
          ∃ inner, JsonValue.arr inner ∈ arr ∧ w ∈ inner ∧ w.isStr = false))) := by
  constructor
  · intro v h1 h2
    cases v <;> simp [JsonValue.isStr, JsonValue.isArr] at h1 h2 <;> rfl
  · intro arr h
    obtain ⟨exp, w, hw, hcase⟩ := parseAnds_bad arr h
    exact ⟨exp, w, by simp [parse_filter, parse_filter_array, hw], hcase⟩

theorem filter_shape_errors_witness :
    (parse_filter (fun s => .ok (some (.leaf s))) (.num "1") =
      .error (.facet ["Array"] (.num "1"))) ∧
    (∃ expected w,
      parse_filter (fun s => .ok (some (.leaf s))) (.arr [.num "1", .num "2"]) =
        .error (.facet expected w) ∧
      ((expected = ["String", "[String]"] ∧ w ∈ [JsonValue.num "1", JsonValue.num "2"] ∧
        w.isStr = false ∧ w.isArr = false) ∨
       (expected = ["String"] ∧
        ∃ inner, JsonValue.arr inner ∈ [JsonValue.num "1", JsonValue.num "2"] ∧
          w ∈ inner ∧ w.isStr = false))) :=
  ⟨(filter_shape_errors (fun s => .ok (some (.leaf s)))).1 (.num "1") rfl rfl,
   (filter_shape_errors (fun s => .ok (some (.leaf s)))).2
     [.num "1", .num "2"] (by decide)⟩

/-! Lemmas about the highlight step. -/

theorem add_highlight_star_eq (fo : FMap) (rest : List String) (m : FieldsIdsMap)
    (displayed : List FieldId) :
    add_highlight_to_formatted_options fo ("*" :: rest) m displayed =
      displayed.foldl (fun acc id => fmInsert id ⟨true, none⟩ acc) fo := by
  simp [add_highlight_to_formatted_options]

theorem add_highlight_cons_found (fo : FMap) (a : String) (rest : List String)
    (m : FieldsIdsMap) (displayed : List FieldId) (j : FieldId) (hstar : a ≠ "*")
    (hid : m.id a = some j) (hdisp : j ∈ displayed) :
    add_highlight_to_formatted_options fo (a :: rest) m displayed =
      add_highlight_to_formatted_options (fmInsert j ⟨true, none⟩ fo) rest m displayed := by
  simp [add_highlight_to_formatted_options, hstar, hid, hdisp]

theorem add_highlight_cons_missing (fo : FMap) (a : String) (rest : List String)
    (m : FieldsIdsMap) (displayed : List FieldId) (hstar : a ≠ "*")
    (hid : m.id a = none) :
    add_highlight_to_formatted_options fo (a :: rest) m displayed =
      add_highlight_to_formatted_options fo rest m displayed := by
  simp [add_highlight_to_formatted_options, hstar, hid]

theorem add_highlight_cons_hidden (fo : FMap) (a : String) (rest : List String)
    (m : FieldsIdsMap) (displayed : List FieldId) (j : FieldId) (hstar : a ≠ "*")
    (hid : m.id a = some j) (hdisp : j ∉ displayed) :
    add_highlight_to_formatted_options fo (a :: rest) m displayed =
      add_highlight_to_formatted_options fo rest m displayed := by
  simp [add_highlight_to_formatted_options, hstar, hid, hdisp]

theorem fmLookup_foldl_insert_preserve (v : FormatOptions) (id : Nat) (ids : List Nat)
    (fo : FMap) (h : id ∉ ids) :
    fmLookup id (ids.foldl (fun acc j => fmInsert j v acc) fo) = fmLookup id fo :=
  fmLookup_foldl_preserve _ id
    (fun fo j hj => by rw [fmLookup_fmInsert]; simp [Ne.symm hj]) ids fo h

theorem add_highlight_preserves_painted (m : FieldsIdsMap) (displayed : List FieldId)
    (attrs : List String) : ∀ (fo : FMap) (id : FieldId),
    fmLookup id fo = some ⟨true, none⟩ →
      fmLookup id (add_highlight_to_formatted_options fo attrs m displayed) =
        some ⟨true, none⟩ := by
  induction attrs with
  | nil => intro fo id h; exact h
  | cons a rest ih =>
    intro fo id h
    by_cases hstar : a = "*"
    · subst hstar
      rw [add_highlight_star_eq]
      by_cases hm : id ∈ displayed
      · exact fmLookup_foldl_insert_mem _ _ _ _ hm
      · rw [fmLookup_foldl_insert_preserve _ _ _ _ hm]; exact h
    · cases hid : m.id a with
      | none => rw [add_highlight_cons_missing fo a rest m displayed hstar hid]; exact ih fo id h
      | some j =>
        by_cases hdisp : j ∈ displayed
        · rw [add_highlight_cons_found fo a rest m displayed j hstar hid hdisp]
          apply ih
          rw [fmLookup_fmInsert]
          by_cases hij : id = j <;> simp [hij, h]
        · rw [add_highlight_cons_hidden fo a rest m displayed j hstar hid hdisp]
          exact ih fo id h

theorem add_highlight_entry_cases (m : FieldsIdsMap) (displayed : List FieldId)
    (attrs : List String) : ∀ (fo : FMap) (id : FieldId) (v : FormatOptions),
    fmLookup id (add_highlight_to_formatted_options fo attrs m displayed) = some v →
      v = ⟨true, none⟩ ∨ fmLookup id fo = some v := by
  induction attrs with
  | nil => intro fo id v h; exact Or.inr h
  | cons a rest ih =>
    intro fo id v h
    by_cases hstar : a = "*"
    · subst hstar
      rw [add_highlight_star_eq] at h
      by_cases hm : id ∈ displayed
      · rw [fmLookup_foldl_insert_mem _ _ _ _ hm] at h
        exact Or.inl (Option.some_injective _ h).symm
      · rw [fmLookup_foldl_insert_preserve _ _ _ _ hm] at h
        exact Or.inr h
    · cases hid : m.id a with
      | none =>
        rw [add_highlight_cons_missing fo a rest m displayed hstar hid] at h
        exact ih fo id v h
      | some j =>
        by_cases hdisp : j ∈ displayed
        · rw [add_highlight_cons_found fo a rest m displayed j hstar hid hdisp] at h
          rcases ih _ id v h with h1 | h1
          · exact Or.inl h1
          · rw [fmLookup_fmInsert] at h1
            by_cases hij : id = j
            · rw [if_pos hij] at h1
              exact Or.inl (Option.some_injective _ h1).symm
            · rw [if_neg hij] at h1
              exact Or.inr h1
        · rw [add_highlight_cons_hidden fo a rest m displayed j hstar hid hdisp] at h
          exact ih fo id v h

theorem add_highlight_star_paints (m : FieldsIdsMap) (displayed : List FieldId)
    (attrs : List String) : ∀ (fo : FMap), "*" ∈ attrs → ∀ id ∈ displayed,
      fmLookup id (add_highlight_to_formatted_options fo attrs m displayed) =
        some ⟨true, none⟩ := by
  induction attrs with
  | nil => intro fo h; simp at h
  | cons a rest ih =>
    intro fo hmem id hid
    by_cases hstar : a = "*"
    · subst hstar
      rw [add_highlight_star_eq]
      exact fmLookup_foldl_insert_mem _ _ _ _ hid
    · have hrest : "*" ∈ rest := by
        rcases List.mem_cons.mp hmem with h1 | h1
        · exact absurd h1.symm hstar
        · exact h1
      cases hj : m.id a with
      | none =>
        rw [add_highlight_cons_missing fo a rest m displayed hstar hj]
        exact ih fo hrest id hid
      | some j =>
        by_cases hdisp : j ∈ displayed
        · rw [add_highlight_cons_found fo a rest m displayed j hstar hj hdisp]
          exact ih _ hrest id hid
        · rw [add_highlight_cons_hidden fo a rest m displayed j hstar hj hdisp]
          exact ih fo hrest id hid

theorem add_highlight_named_paints (m : FieldsIdsMap) (displayed : List FieldId)
    (attrs : List String) : ∀ (fo : FMap) (a : String), a ∈ attrs →
    ∀ id, m.id a = some id → id ∈ displayed →
      fmLookup id (add_highlight_to_formatted_options fo attrs m displayed) =
        some ⟨true, none⟩ := by
  induction attrs with
  | nil => intro fo a h; simp at h
  | cons b rest ih =>
    intro fo a hmem id hida hdisp
    by_cases hstar : b = "*"
    · subst hstar
      rw [add_highlight_star_eq]
      exact fmLookup_foldl_insert_mem _ _ _ _ hdisp
    · by_cases hab : a = b
      · subst hab
        rw [add_highlight_cons_found fo a rest m displayed id hstar hida hdisp]
        exact add_highlight_preserves_painted m displayed rest _ id
          (by rw [fmLookup_fmInsert]; simp)
      · have hrest : a ∈ rest := by
          rcases List.mem_cons.mp hmem with h1 | h1
          · exact absurd h1 hab
          · exact h1
        cases hj : m.id b with
        | none =>
          rw [add_highlight_cons_missing fo b rest m displayed hstar hj]
          exact ih fo a hrest id hida hdisp
        | some j =>
          by_cases hjd : j ∈ displayed
          · rw [add_highlight_cons_found fo b rest m displayed j hstar hj hjd]
            exact ih _ a hrest id hida hdisp
          · rw [add_highlight_cons_hidden fo b rest m displayed j hstar hj hjd]
            exact ih fo a hrest id hida hdisp

/-- C5 counterexample: with a prior plan already recording `crop = Some 5` at
field id 0, processing the highlight attribute `"a"` (mapped to id 0,
displayed) OVERWRITES the entry with `{highlight: true, crop: None}` — the
prior crop value is NOT preserved, contrary to the claim. -/
theorem highlight_discards_prior_crop :
    fmLookup 0 (add_highlight_to_formatted_options [(0, ⟨false, some 5⟩)] ["a"]
      ⟨[(0, "a")]⟩ [0]) = some ⟨true, none⟩ ∧
    fmLookup 0 (add_highlight_to_formatted_options [(0, ⟨false, some 5⟩)] ["a"]
      ⟨[(0, "a")]⟩ [0]) ≠ some ⟨true, some 5⟩ := by
  constructor <;> decide

/-- C5 amended: processing a requested highlight attribute (or `*`, expanding
to all displayed fields) inserts `{highlight: true, crop: None}` at the
corresponding field id, OVERWRITING any crop value already recorded there
(every entry of the resulting plan is either this fresh value or an untouched
prior entry). Since `compute_formatted_options` runs the highlight step first
on an empty plan, no prior crop value ever exists in the actual flow. -/
theorem highlight_step_amended (fo : FMap) (attrs : List String) (m : FieldsIdsMap)
    (displayed : List FieldId) :
    (∀ id v, fmLookup id (add_highlight_to_formatted_options fo attrs m displayed) = some v →
      v = ⟨true, none⟩ ∨ fmLookup id fo = some v) ∧
    ("*" ∈ attrs → ∀ id ∈ displayed,
      fmLookup id (add_highlight_to_formatted_options fo attrs m displayed) =
        some ⟨true, none⟩) ∧
    (∀ a ∈ attrs, ∀ id, m.id a = some id → id ∈ displayed →
      fmLookup id (add_highlight_to_formatted_options fo attrs m displayed) =
        some ⟨true, none⟩) :=
  ⟨fun id v h => add_highlight_entry_cases m displayed attrs fo id v h,
   fun hstar id hid => add_highlight_star_paints m displayed attrs fo hstar id hid,
   fun a ha id hida hdisp => add_highlight_named_paints m displayed attrs fo a ha id hida hdisp⟩

theorem highlight_step_amended_witness :
    fmLookup 0 (add_highlight_to_formatted_options [] ["title"]
      ⟨[(0, "title"), (1, "body")]⟩ [0, 1]) = some ⟨true, none⟩ :=
  (highlight_step_amended [] ["title"] ⟨[(0, "title"), (1, "body")]⟩ [0, 1]).2.2
    "title" (by simp) 0 (by decide) (by decide)

/-! Lemmas about the crop step and the plan as a whole. -/

theorem add_crop_cons_eq (fo : FMap) (attr : String) (rest : List String) (len : Nat)
    (m : FieldsIdsMap) (displayed : List FieldId) :
    add_crop_to_formatted_options fo (attr :: rest) len m displayed =
      add_crop_to_formatted_options (cropApplyAttr fo attr len m displayed)
        rest len m displayed := rfl

theorem cropApplyAttr_preserve (fo : FMap) (attr : String) (len : Nat) (m : FieldsIdsMap)
    (displayed : List FieldId) (id : FieldId) (hid : id ∉ displayed) :
    fmLookup id (cropApplyAttr fo attr len m displayed) = fmLookup id fo := by
  have hpres : ∀ fo2 : FMap, fmLookup id
      (if (cropNameLen attr len).1 = "*" then
        displayed.foldl
          (fun acc j => fmEntry j (fun f => ⟨f.highlight, some (cropNameLen attr len).2⟩)
            ⟨false, some (cropNameLen attr len).2⟩ acc)
          fo2
      else fo2) = fmLookup id fo2 := by
    intro fo2
    by_cases hstar : (cropNameLen attr len).1 = "*"
    · rw [if_pos hstar]
      exact fmLookup_foldl_preserve _ id
        (fun fo j hj => by rw [fmLookup_fmEntry]; simp [Ne.symm hj]) displayed fo2 hid
    · rw [if_neg hstar]
  cases hj : m.id (cropNameLen attr len).1 with
  | none =>
    simp only [cropApplyAttr, hj]
    exact hpres fo
  | some j =>
    by_cases hjd : j ∈ displayed
    · simp only [cropApplyAttr, hj, if_pos hjd]
      rw [fmLookup_fmEntry, if_neg (fun hh : id = j => hid (hh ▸ hjd))]
      exact hpres fo
    · simp only [cropApplyAttr, hj, if_neg hjd]
      exact hpres fo

theorem add_crop_not_displayed (len : Nat) (m : FieldsIdsMap) (displayed : List FieldId)
    (attrs : List String) : ∀ (fo : FMap) (id : FieldId), id ∉ displayed →
      fmLookup id (add_crop_to_formatted_options fo attrs len m displayed) =
        fmLookup id fo := by
  induction attrs with
  | nil => intro fo id _; rfl
  | cons attr rest ih =>
    intro fo id hid
    rw [add_crop_cons_eq, ih _ id hid, cropApplyAttr_preserve fo attr len m displayed id hid]

theorem add_highlight_not_displayed (m : FieldsIdsMap) (displayed : List FieldId)
    (attrs : List String) : ∀ (fo : FMap) (id : FieldId), id ∉ displayed →
      fmLookup id (add_highlight_to_formatted_options fo attrs m displayed) =
        fmLookup id fo := by
  induction attrs with
  | nil => intro fo id _; rfl
  | cons a rest ih =>
    intro fo id hid
    by_cases hstar : a = "*"
    · subst hstar
      rw [add_highlight_star_eq]
      exact fmLookup_foldl_insert_preserve _ _ _ _ hid
    · cases hj : m.id a with
      | none =>
        rw [add_highlight_cons_missing fo a rest m displayed hstar hj]
        exact ih fo id hid
      | some j =>
        by_cases hjd : j ∈ displayed
        · rw [add_highlight_cons_found fo a rest m displayed j hstar hj hjd, ih _ id hid,
            fmLookup_fmInsert, if_neg (fun hh : id = j => hid (hh ▸ hjd))]
        · rw [add_highlight_cons_hidden fo a rest m displayed j hstar hj hjd]
          exact ih fo id hid

theorem toRetrieveIds_subset (ar : Option (List String)) (m : FieldsIdsMap)
    (displayed : List FieldId) (id : FieldId) (h : id ∈ toRetrieveIds ar m displayed) :
    id ∈ displayed := by
  unfold toRetrieveIds listInter at h
  simp only [List.mem_filter, decide_eq_true_eq] at h
  exact h.2

theorem fmLookup_foldl_entry_preserve (F : FormatOptions → FormatOptions)
    (D : FormatOptions) (id : Nat) (ids : List Nat) (fo : FMap) (h : id ∉ ids) :
    fmLookup id (ids.foldl (fun acc j => fmEntry j F D acc) fo) = fmLookup id fo :=
  fmLookup_foldl_preserve _ id
    (fun fo j hj => by rw [fmLookup_fmEntry]; simp [Ne.symm hj]) ids fo h

theorem compute_formatted_options_not_displayed (hl cr : List String) (len : Nat)
    (ar : Option (List String)) (m : FieldsIdsMap) (displayed : List FieldId)
    (id : FieldId) (hid : id ∉ displayed) :
    fmLookup id (compute_formatted_options hl cr len (toRetrieveIds ar m displayed)
      m displayed) = none := by
  have h1 : fmLookup id (add_crop_to_formatted_options
      (add_highlight_to_formatted_options [] hl m displayed) cr len m displayed) = none := by
    rw [add_crop_not_displayed len m displayed cr _ id hid,
      add_highlight_not_displayed m displayed hl _ id hid]
    rfl
  have hretr : id ∉ toRetrieveIds ar m displayed :=
    fun hmem => hid (toRetrieveIds_subset ar m displayed id hmem)
  simp only [compute_formatted_options]
  split
  · exact h1
  · unfold add_non_formatted_ids_to_formatted_options
    rw [fmLookup_foldl_entry_preserve _ _ id _ _ hretr]
    exact h1

/-- C2: for every set of requested attribute names (to retrieve, to highlight
or to crop), a field id absent from the displayed-field set never enters the
resolved retrieve-id set nor the format-option plan, whether named explicitly
or via `*`; a name absent from the field catalog is silently dropped (the
scan is unchanged), not an error. -/
theorem displayed_fields_gate :
    (∀ ar m displayed id, id ∈ toRetrieveIds ar m displayed → id ∈ displayed) ∧
    (∀ hl cr len ar m displayed id, id ∉ displayed →
      fmLookup id (compute_formatted_options hl cr len (toRetrieveIds ar m displayed)
        m displayed) = none) ∧
    (∀ (m : FieldsIdsMap) displayed a attrs acc, m.id a = none → a ≠ "*" →
      fids m displayed (a :: attrs) acc = fids m displayed attrs acc) ∧
    (∀ fo (m : FieldsIdsMap) displayed a attrs, m.id a = none → a ≠ "*" →
      add_highlight_to_formatted_options fo (a :: attrs) m displayed =
        add_highlight_to_formatted_options fo attrs m displayed) ∧
    (∀ fo (m : FieldsIdsMap) displayed a attrs len, m.id (cropNameLen a len).1 = none →
      (cropNameLen a len).1 ≠ "*" →
      add_crop_to_formatted_options fo (a :: attrs) len m displayed =
        add_crop_to_formatted_options fo attrs len m displayed) := by
  refine ⟨toRetrieveIds_subset, compute_formatted_options_not_displayed, ?_, ?_, ?_⟩
  · intro m displayed a attrs acc h1 h2
    simp [fids, h1, h2]
  · intro fo m displayed a attrs h1 h2
    exact add_highlight_cons_missing fo a attrs m displayed h2 h1
  · intro fo m displayed a attrs len h1 h2
    rw [add_crop_cons_eq]
    have : cropApplyAttr fo a len m displayed = fo := by
      simp only [cropApplyAttr, h1, if_neg h2]
    rw [this]

theorem displayed_fields_gate_witness :
    fmLookup 1 (compute_formatted_options ["a"] [] 10
      (toRetrieveIds none ⟨[(0, "a"), (1, "b")]⟩ [0]) ⟨[(0, "a"), (1, "b")]⟩ [0]) = none :=
  displayed_fields_gate.2.1 ["a"] [] 10 none ⟨[(0, "a"), (1, "b")]⟩ [0] 1 (by decide)

theorem select_values_nil (doc : Document) : select_values doc [] = [] := by
  simp [select_values, selectedBy]

theorem format_fields_empty_plan (matcher : TextMatcher) (m : FieldsIdsMap)
    (cm : Bool) (dispIds : List FieldId) (doc : Document) :
    (format_fields matcher m [] cm dispIds doc).2 = [] := by
  simp [format_fields, select_values_nil]

theorem fmLookup_foldl_orInsert_preserve (d : FormatOptions) (id : Nat) (ids : List Nat)
    (fo : FMap) (h : id ∉ ids) :
    fmLookup id (ids.foldl (fun acc j => fmEntry j (fun f => f) d acc) fo) =
      fmLookup id fo :=
  fmLookup_foldl_preserve _ id
    (fun fo j hj => by rw [fmLookup_fmEntry]; simp [Ne.symm hj]) ids fo h

/-- C6: when the plan produced by the highlight and crop steps is non-empty,
every retrieve id not already present is padded in with
`{highlight: false, crop: None}` (present entries are untouched); when that
plan is empty, no padding occurs, the overall plan stays empty, the formatted
document of `format_fields` is empty, and serialization then omits the
`_formatted` key rather than emitting an empty object. -/
theorem formatted_padding_and_empty_plan :
    (∀ hl cr len retr (m : FieldsIdsMap) disp,
      add_crop_to_formatted_options (add_highlight_to_formatted_options [] hl m disp)
        cr len m disp = [] →
      compute_formatted_options hl cr len retr m disp = []) ∧
    (∀ hl cr len retr (m : FieldsIdsMap) disp,
      add_crop_to_formatted_options (add_highlight_to_formatted_options [] hl m disp)
        cr len m disp ≠ [] →
      (∀ id ∈ retr, fmLookup id (compute_formatted_options hl cr len retr m disp) =
        some ((fmLookup id (add_crop_to_formatted_options
          (add_highlight_to_formatted_options [] hl m disp) cr len m disp)).getD
            ⟨false, none⟩)) ∧
      (∀ id, id ∉ retr → fmLookup id (compute_formatted_options hl cr len retr m disp) =
        fmLookup id (add_crop_to_formatted_options
          (add_highlight_to_formatted_options [] hl m disp) cr len m disp))) ∧
    (∀ matcher m cm dispIds doc, (format_fields matcher m [] cm dispIds doc).2 = []) ∧
    (∀ doc mp, SearchHit.hasFormattedKey ⟨doc, [], mp⟩ = false) := by
  refine ⟨?_, ?_, format_fields_empty_plan, fun doc mp => rfl⟩
  · intro hl cr len retr m disp h
    simp only [compute_formatted_options, h]
    rfl
  · intro hl cr len retr m disp h
    have hemp : (add_crop_to_formatted_options
        (add_highlight_to_formatted_options [] hl m disp) cr len m disp).isEmpty = false := by
      cases hc : add_crop_to_formatted_options
          (add_highlight_to_formatted_options [] hl m disp) cr len m disp with
      | nil => exact absurd hc h
      | cons p rest => rfl
    constructor
    · intro id hmem
      simp only [compute_formatted_options, hemp, Bool.false_eq_true, if_false]
      exact fmLookup_foldl_orInsert_mem _ id retr _ hmem
    · intro id hmem
      simp only [compute_formatted_options, hemp, Bool.false_eq_true, if_false]
      exact fmLookup_foldl_orInsert_preserve _ id retr _ hmem

theorem formatted_padding_witness :
    fmLookup 1 (compute_formatted_options ["a"] [] 10 [1] ⟨[(0, "a"), (1, "b")]⟩ [0, 1]) =
      some ⟨false, none⟩ := by
  have h := (formatted_padding_and_empty_plan.2.1 ["a"] [] 10 [1] ⟨[(0, "a"), (1, "b")]⟩
    [0, 1] (by decide)).1 1 (by decide)
  rw [h]
  decide

/-- C8: when formatting recurses into an array or object, the nested elements
receive `crop = None` while the highlight flag is inherited (so the result of
formatting an array or object does not depend on the crop value at all — only
a top-level leaf can be cropped), and boolean and null leaves are passed
through unchanged at every recursion level. -/
theorem nested_crop_suppressed (matcher : TextMatcher) (cm : Bool)
    (fo : Option FormatOptions) (infos : List MatchBounds) (b hl : Bool)
    (vs : List JsonValue) (kvs : List (String × JsonValue)) (c c' : Option Nat) :
    format_value matcher cm .null fo infos = (.null, infos) ∧
    format_value matcher cm (.bool b) fo infos = (.bool b, infos) ∧
    format_value matcher cm (.arr vs) (some ⟨hl, c⟩) infos =
      format_value matcher cm (.arr vs) (some ⟨hl, c'⟩) infos ∧
    format_value matcher cm (.obj kvs) (some ⟨hl, c⟩) infos =
      format_value matcher cm (.obj kvs) (some ⟨hl, c'⟩) infos ∧
    (format_value matcher cm (.arr vs) (some ⟨hl, c⟩) infos).1 =
      .arr (format_value_list matcher cm vs (some ⟨hl, none⟩) infos).1 := by
  refine ⟨?_, ?_, ?_, ?_, ?_⟩ <;> simp [format_value]

/-- C7 counterexample: with `computeMatches = true` and a document in which no
leaf produces any match span, `format_fields` returns `Some` of an EMPTY
mapping (which serializes as `"_matchesPosition": {}`), not an absent
result as the claim states. -/
theorem matches_position_present_when_empty :
    (format_fields trivialMatcher ⟨[(0, "a")]⟩ [] true [0] [("a", .str "x")]).1 =
      some [] ∧
    (format_fields trivialMatcher ⟨[(0, "a")]⟩ [] true [0] [("a", .str "x")]).1 ≠
      none := by
  constructor <;>
    simp [format_fields, formatLeafStep, format_value, trivialMatcher, formatOptionFor,
      selectedBy, is_faceted_by, FieldsIdsMap.name]

theorem mpInsert_mem (k : String) (v : List MatchBounds) :
    ∀ (l : List (String × List MatchBounds)) (p : String × List MatchBounds),
      p ∈ mpInsert k v l → p = (k, v) ∨ p ∈ l := by
  intro l
  induction l with
  | nil =>
    intro p h
    simp [mpInsert] at h
    exact Or.inl h
  | cons q rest ih =>
    obtain ⟨j, w⟩ := q
    intro p h
    simp only [mpInsert] at h
    split at h
    · rcases List.mem_cons.mp h with h1 | h1
      · exact Or.inl h1
      · exact Or.inr h1
    · split at h
      · rcases List.mem_cons.mp h with h1 | h1
        · exact Or.inl h1
        · exact Or.inr (List.mem_cons_of_mem _ h1)
      · rcases List.mem_cons.mp h with h1 | h1
        · exact Or.inr (h1 ▸ List.mem_cons_self _ _)
        · rcases ih p h1 with h2 | h2
          · exact Or.inl h2
          · exact Or.inr (List.mem_cons_of_mem _ h2)

theorem mpInsert_self (k : String) (v : List MatchBounds) :
    ∀ l : List (String × List MatchBounds), (k, v) ∈ mpInsert k v l := by
  intro l
  induction l with
  | nil => simp [mpInsert]
  | cons q rest ih =>
    obtain ⟨j, w⟩ := q
    simp only [mpInsert]
    split
    · exact List.mem_cons_self _ _
    · split
      · exact List.mem_cons_self _ _
      · exact List.mem_cons_of_mem _ ih

theorem mpInsert_mem_of_ne (k : String) (v : List MatchBounds) :
    ∀ (l : List (String × List MatchBounds)) (p : String × List MatchBounds),
      p ∈ l → p.1 ≠ k → p ∈ mpInsert k v l := by
  intro l
  induction l with
  | nil => intro p h _; simp at h
  | cons q rest ih =>
    obtain ⟨j, w⟩ := q
    intro p hp hne
    simp only [mpInsert]
    split
    · exact List.mem_cons_of_mem _ hp
    · split
      next heq =>
        rcases List.mem_cons.mp hp with h1 | h1
        · exact absurd (by rw [h1]; exact heq.symm) hne
        · exact List.mem_cons_of_mem _ h1
      · rcases List.mem_cons.mp hp with h1 | h1
        · exact h1 ▸ List.mem_cons_self _ _
        · exact List.mem_cons_of_mem _ (ih p h1 hne)

theorem formatLeafStep_stepped (matcher : TextMatcher) (m : FieldsIdsMap) (fo : FMap)
    (names : List String) (acc : List (String × List MatchBounds) × Document)
    (kv : String × JsonValue) :
    (formatLeafStep matcher m fo true names acc kv).1 =
      if selectedBy kv.1 names && !(leafInfos matcher m fo kv).isEmpty then
        mpInsert kv.1 (leafInfos matcher m fo kv) acc.1
      else acc.1 := by
  simp only [formatLeafStep, leafInfos]
  by_cases hsel : selectedBy kv.1 names = true
  · simp [hsel]
  · simp [hsel]

theorem formatLeafStep_fold_char (matcher : TextMatcher) (m : FieldsIdsMap)
    (fo : FMap) (names : List String) :
    ∀ (doc : Document) (acc : List (String × List MatchBounds) × Document),
      (doc.map (·.1)).Nodup →
      (∀ p ∈ acc.1, p.1 ∉ doc.map (·.1)) →
      ∀ p, p ∈ (doc.foldl (formatLeafStep matcher m fo true names) acc).1 ↔
        (p ∈ acc.1 ∨ ∃ kv, kv ∈ doc ∧ selectedBy kv.1 names = true ∧
          leafInfos matcher m fo kv ≠ [] ∧ p = (kv.1, leafInfos matcher m fo kv)) := by
  intro doc
  induction doc with
  | nil =>
    intro acc _ _ p
    simp
  | cons kv rest ih =>
    intro acc hnodup hfresh p
    have h0 : ((kv :: rest).map (·.1)).Nodup := hnodup
    rw [List.map_cons] at h0
    obtain ⟨hkv, hnodup'⟩ := List.nodup_cons.mp h0
    rw [List.foldl_cons]
    have hfreshkv : ∀ q ∈ acc.1, q.1 ≠ kv.1 := by
      intro q hq heq
      exact hfresh q hq (by simp [heq])
    have hstep := formatLeafStep_stepped matcher m fo names acc kv
    have hmem : ∀ q, q ∈ (formatLeafStep matcher m fo true names acc kv).1 ↔
        ((selectedBy kv.1 names = true ∧ leafInfos matcher m fo kv ≠ [] ∧
          q = (kv.1, leafInfos matcher m fo kv)) ∨ q ∈ acc.1) := by
      intro q
      rw [hstep]
      by_cases hcond : selectedBy kv.1 names && !(leafInfos matcher m fo kv).isEmpty
      · rw [if_pos hcond]
        simp only [Bool.and_eq_true, Bool.not_eq_eq_eq_not, Bool.not_true,
          List.isEmpty_eq_false] at hcond
        constructor
        · intro hq
          rcases mpInsert_mem _ _ _ q hq with h1 | h1
          · exact Or.inl ⟨hcond.1, hcond.2, h1⟩
          · exact Or.inr h1
        · intro hq
          rcases hq with ⟨_, _, h1⟩ | h1
          · exact h1 ▸ mpInsert_self _ _ _
          · exact mpInsert_mem_of_ne _ _ _ q h1 (hfreshkv q h1)
      · rw [if_neg hcond]
        simp only [Bool.and_eq_true, Bool.not_eq_eq_eq_not, Bool.not_true,
          List.isEmpty_eq_false, not_and] at hcond
        constructor
        · intro hq; exact Or.inr hq
        · intro hq
          rcases hq with ⟨h1, h2, _⟩ | h1
          · exact absurd h2 (by simpa using hcond h1)
          · exact h1
    have hfresh' : ∀ q ∈ (formatLeafStep matcher m fo true names acc kv).1,
        q.1 ∉ rest.map (·.1) := by
      intro q hq
      rcases (hmem q).mp hq with ⟨_, _, h1⟩ | h1
      · rw [h1]; exact hkv
      · intro hmem2
        exact hfresh q h1 (by simp [hmem2])
    rw [ih (formatLeafStep matcher m fo true names acc kv) hnodup' hfresh' p, hmem p]
    constructor
    · intro h
      rcases h with (⟨h1, h2, h3⟩ | h1) | ⟨kv2, h4, h5, h6, h7⟩
      · exact Or.inr ⟨kv, List.mem_cons_self _ _, h1, h2, h3⟩
      · exact Or.inl h1
      · exact Or.inr ⟨kv2, List.mem_cons_of_mem _ h4, h5, h6, h7⟩
    · intro h
      rcases h with h1 | ⟨kv2, h4, h5, h6, h7⟩
      · exact Or.inl (Or.inr h1)
      · rcases List.mem_cons.mp h4 with h8 | h8
        · exact Or.inl (Or.inl ⟨h8 ▸ h5, h8 ▸ h6, by rw [h7, h8]⟩)
        · exact Or.inr ⟨kv2, h8, h5, h6, h7⟩

/-- C7 amended: the match-position result is `None` exactly when
`computeMatches` is false; when `computeMatches` is true it is always present
as a mapping (possibly empty — which then serializes as an empty object, not
as an absent field) containing EXACTLY the visited leaf paths whose
`format_value` run produced a non-empty span list, each mapped to that span
list (for a document with the unique field names of a `serde_json::Map`). -/
theorem matches_position_amended (matcher : TextMatcher) (m : FieldsIdsMap) (fo : FMap)
    (dispIds : List FieldId) (doc : Document)
    (hnodup : (doc.map (·.1)).Nodup) :
    (format_fields matcher m fo false dispIds doc).1 = none ∧
    ∃ mp, (format_fields matcher m fo true dispIds doc).1 = some mp ∧
      ∀ p, p ∈ mp ↔ ∃ kv, kv ∈ doc ∧
        selectedBy kv.1 (dispIds.filterMap m.name) = true ∧
        leafInfos matcher m fo kv ≠ [] ∧
        p = (kv.1, leafInfos matcher m fo kv) := by
  constructor
  · simp [format_fields]
  · refine ⟨(doc.foldl (formatLeafStep matcher m fo true
      (dispIds.filterMap m.name)) ([], [])).1, by simp [format_fields], ?_⟩
    intro p
    rw [formatLeafStep_fold_char matcher m fo (dispIds.filterMap m.name) doc ([], [])
      hnodup (by simp) p]
    simp

theorem matches_position_amended_witness :
    (format_fields trivialMatcher ⟨[(0, "a")]⟩ [] false [0] [("a", .str "x")]).1 =
      none :=
  (matches_position_amended trivialMatcher ⟨[(0, "a")]⟩ [] [0] [("a", .str "x")]
    (by simp)).1

theorem findSome?_eq_none_of_all_none {α β : Type} (f : α → Option β) :
    ∀ l : List α, (∀ x ∈ l, f x = none) → l.findSome? f = none := by
  intro l
  induction l with
  | nil => intro _; rfl
  | cons x rest ih =>
    intro h
    rw [List.findSome?_cons, h x (List.mem_cons_self _ _)]
    exact ih (fun y hy => h y (List.mem_cons_of_mem _ hy))

theorem findSome?_first {α β : Type} (f : α → Option β) (pre : List α) (s : α)
    (post : List α) (b : β) (hpre : ∀ t ∈ pre, f t = none) (hs : f s = some b) :
    (pre ++ s :: post).findSome? f = some b := by
  induction pre with
  | nil => rw [List.nil_append, List.findSome?_cons, hs]
  | cons x rest ih =>
    rw [List.cons_append, List.findSome?_cons, hpre x (List.mem_cons_self _ _)]
    exact ih (fun y hy => hpre y (List.mem_cons_of_mem _ hy))

/-- C9: the geo augmenter uses only the FIRST sort entry matching the
`_geoPoint(<lat>,<lng>)` pattern; when such an entry exists and the document
has a `_geo` value with numeric `lat` and `lng`, it inserts the (externally
computed, rounded) distance under `_geoDistance`; with no matching directive,
or no usable `_geo` point, the document is returned unchanged and no error is
raised (the augmenter is total). -/
theorem geo_distance_augmentation (dist : String → String → String → String → Nat)
    (doc : Document) :
    (∀ sorts : List String, (∀ s ∈ sorts, geoCapture s = none) →
      insert_geo_distance dist sorts doc = doc) ∧
    (∀ (pre post : List String) (s a b : String), (∀ t ∈ pre, geoCapture t = none) →
      geoCapture s = some (a, b) →
      (∀ lat lng,
        jsonAsNum (jsonIndex ((docGet doc "_geo").getD .null) "lat") = some lat →
        jsonAsNum (jsonIndex ((docGet doc "_geo").getD .null) "lng") = some lng →
        insert_geo_distance dist (pre ++ s :: post) doc =
          docInsert doc "_geoDistance" (.num (toString (dist a b lat lng)))) ∧
      (jsonAsNum (jsonIndex ((docGet doc "_geo").getD .null) "lat") = none ∨
       jsonAsNum (jsonIndex ((docGet doc "_geo").getD .null) "lng") = none →
        insert_geo_distance dist (pre ++ s :: post) doc = doc)) := by
  constructor
  · intro sorts h
    unfold insert_geo_distance
    rw [findSome?_eq_none_of_all_none geoCapture sorts h]
  · intro pre post s a b hpre hs
    constructor
    · intro lat lng hlat hlng
      unfold insert_geo_distance
      rw [findSome?_first geoCapture pre s post (a, b) hpre hs]
      simp only [hlat, hlng]
    · intro hnone
      unfold insert_geo_distance
      rw [findSome?_first geoCapture pre s post (a, b) hpre hs]
      rcases hnone with hn | hn
      · simp only [hn]
      · cases hlat : jsonAsNum (jsonIndex ((docGet doc "_geo").getD .null) "lat") <;>
          simp only [hlat, hn]

theorem geo_distance_augmentation_witness :
    insert_geo_distance (fun _ _ _ _ => 7)
      ["city:asc", "_geoPoint(1,2):desc"] geoDocW =
      docInsert geoDocW "_geoDistance" (.num (toString 7)) :=
  ((geo_distance_augmentation (fun _ _ _ _ => 7) geoDocW).2
    ["city:asc"] [] "_geoPoint(1,2):desc" "1" "2"
    (by intro t ht; simp at ht; subst ht; decide) (by decide)).1
    "50.6" "3.05" (by decide) (by decide)

/-- C10: every successful `perform_search` call returns a result whose `limit`
and `offset` fields echo the caller's original values (absent offset
defaulting to 0), not the internally clamped effective bounds. -/
theorem result_echoes_request (idx : IndexModel) (query : SearchQuery)
    (result : SearchResult) (h : perform_search idx query = .ok result) :
    result.limit = query.limit ∧ result.offset = query.offset.getD 0 := by
  unfold perform_search at h
  simp only [bind, Except.bind] at h
  repeat' split at h
  all_goals first
    | exact Except.noConfusion h
    | (injection h with h1; subst h1; exact ⟨rfl, rfl⟩)

theorem result_echoes_request_witness :
    searchResultW.limit = queryW.limit ∧
    searchResultW.offset = queryW.offset.getD 0 :=
  result_echoes_request idxW queryW searchResultW (by rfl)

end MeiliSearch
